import Mathlib

/-!
Verification of the GPA extraction-to-graph pipeline.

Shallow embedding of the Python sources:
- `src/knowledge_graph/knowledge_graph_builder.py` (validator, extraction
  controller, batch reconciler, graph assembler),
- `src/poison_generator/poison_text_generator.py` (path enumerator),
- `src/poison_enhancer/poison_text_enhancer.py` (pair composer).

Parsed JSON dictionaries are modelled as structures whose optional keys are
`Option` fields; the external LLM gateway is modelled as an oracle argument
(`CallOutcome` / `BatchOutcome` values, or a `synth` function), since its
answers are unconstrained inputs to the code under verification.
-/

namespace GPA

/-- One entry of a fragment's `entities` list: `{name, type, context_role}`. -/
structure Entity where
  name : String
  type : String
  context_role : String
deriving DecidableEq, Repr

/-- One entry of a fragment's `relations` list.  `is_core_answer` and
`poison_text` are optional keys of the parsed dictionary, hence `Option`. -/
structure Relation where
  source : String
  target : String
  relation : String
  context_intent : String
  is_core_answer : Option Bool
  poison_text : Option String
deriving DecidableEq, Repr

/-- The `query_analysis` sub-dictionary; the validator only reads its
`core_entity` key, which may be absent (`get` returns `None`). -/
structure QueryAnalysis where
  core_entity : Option String
deriving DecidableEq, Repr

/-- A parsed extraction result.  Each field models the presence/absence of the
corresponding key of the JSON dictionary. -/
structure Fragment where
  query_analysis : Option QueryAnalysis
  entities : Option (List Entity)
  relations : Option (List Relation)
  original_query : Option String
  original_answer : Option String
deriving DecidableEq, Repr

/-- Python falsiness of `data["query_analysis"].get("core_entity")`:
absent key or empty string. -/
def coreEntityFalsy : Option String → Bool
  | none => true
  | some s => s.isEmpty

/-- The relation-scanning loop of `validate_extraction_result`
(knowledge_graph_builder.py lines 99-110): walk `relations` in order; at the
first relation with `is_core_answer == True`, succeed iff its `poison_text`
key is present and equal to `answer`; if no relation is marked, fail. -/
def checkCoreAnswer (answer : String) : List Relation → Bool
  | [] => false
  | r :: rest =>
    if r.is_core_answer = some true then
      match r.poison_text with
      | none => false
      | some p => p == answer
    else checkCoreAnswer answer rest

/-- `KnowledgeGraphBuilder.validate_extraction_result(data, query, answer)`
(knowledge_graph_builder.py lines 78-112).  The initial `if not data` check is
subsumed by the `query_analysis` presence check (an empty dictionary has no
`query_analysis` key). -/
def validate_extraction_result (data : Fragment) (query answer : String) : Bool :=
  match data.query_analysis with
  | none => false
  | some qa =>
    if coreEntityFalsy qa.core_entity then false
    else
      match data.entities with
      | none => false
      | some es =>
        if es.isEmpty then false
        else
          match data.relations with
          | none => false
          | some rs =>
            if rs.isEmpty then false
            else checkCoreAnswer answer rs

/-- `data["original_query"] = query; data["original_answer"] = answer`. -/
def attachOrig (d : Fragment) (query answer : String) : Fragment :=
  { d with original_query := some query, original_answer := some answer }

/-- The per-relation normalization applied to accepted fragments
(knowledge_graph_builder.py lines 175-180 and 224-229): default
`is_core_answer` to `False` when absent, then backfill `poison_text` from
`answer` on a core-answer relation lacking it. -/
def normalizeRelation (answer : String) (r : Relation) : Relation :=
  let r1 := match r.is_core_answer with
    | none => { r with is_core_answer := some false }
    | some _ => r
  if r1.is_core_answer = some true ∧ r1.poison_text = none then
    { r1 with poison_text := some answer }
  else r1

/-- Normalization over `data.get("relations", [])`: absent key means nothing
to normalize. -/
def normalizeFragment (d : Fragment) (answer : String) : Fragment :=
  { d with relations := d.relations.map (fun rs => rs.map (normalizeRelation answer)) }

lemma checkCoreAnswer_cons (answer : String) (r : Relation) (rest : List Relation) :
    checkCoreAnswer answer (r :: rest) =
      if r.is_core_answer = some true then
        (match r.poison_text with
         | none => false
         | some p => p == answer)
      else checkCoreAnswer answer rest := rfl

lemma checkCoreAnswer_of_no_core (answer : String) (rs : List Relation)
    (h : ∀ r ∈ rs, r.is_core_answer ≠ some true) :
    checkCoreAnswer answer rs = false := by
  induction rs with
  | nil => rfl
  | cons r rest ih =>
    rw [checkCoreAnswer_cons, if_neg (h r (List.mem_cons_self r rest))]
    exact ih (fun x hx => h x (List.mem_cons_of_mem r hx))

lemma checkCoreAnswer_of_all_good (answer : String) (rs : List Relation)
    (hex : ∃ r ∈ rs, r.is_core_answer = some true)
    (hall : ∀ r ∈ rs, r.is_core_answer = some true → r.poison_text = some answer) :
    checkCoreAnswer answer rs = true := by
  induction rs with
  | nil => simp at hex
  | cons r rest ih =>
    rw [checkCoreAnswer_cons]
    by_cases hr : r.is_core_answer = some true
    · rw [if_pos hr]
      have hp := hall r (List.mem_cons_self r rest) hr
      rw [hp]
      simp
    · rw [if_neg hr]
      rcases hex with ⟨x, hx, hxc⟩
      rcases List.mem_cons.mp hx with h1 | h2
      · exact absurd (h1 ▸ hxc) hr
      · exact ih ⟨x, h2, hxc⟩ (fun y hy => hall y (List.mem_cons_of_mem r hy))

lemma checkCoreAnswer_first (answer : String) (pre : List Relation) (r : Relation)
    (post : List Relation) (hpre : ∀ x ∈ pre, x.is_core_answer ≠ some true)
    (hr : r.is_core_answer = some true) :
    checkCoreAnswer answer (pre ++ r :: post) =
      (match r.poison_text with
       | none => false
       | some p => p == answer) := by
  induction pre with
  | nil =>
    rw [List.nil_append, checkCoreAnswer_cons, if_pos hr]
  | cons x xs ih =>
    rw [List.cons_append, checkCoreAnswer_cons,
      if_neg (hpre x (List.mem_cons_self x xs))]
    exact ih (fun y hy => hpre y (List.mem_cons_of_mem x hy))

lemma validate_eq_checkCoreAnswer (d : Fragment) (qa : QueryAnalysis)
    (es : List Entity) (rs : List Relation) (query answer : String)
    (hqa : d.query_analysis = some qa) (hce : coreEntityFalsy qa.core_entity = false)
    (hes : d.entities = some es) (hesne : es ≠ [])
    (hrs : d.relations = some rs) (hrsne : rs ≠ []) :
    validate_extraction_result d query answer = checkCoreAnswer answer rs := by
  simp [validate_extraction_result, hqa, hce, hes, hrs, List.isEmpty_iff, hesne, hrsne]

/-- Outcome of one gateway call followed by JSON extraction, as seen by
`extract_relations` / `retry_extraction_with_guidance`: the gateway returned
nothing (`gwFail`, `call_llm` exhausted its retries), the response could not be
parsed (`parseFail`, the `json.loads` exception path), or a dictionary was
parsed (`parsed`).  The gateway and parser are external nondeterminism, so
they enter the model as oracle values. -/
inductive CallOutcome where
  | gwFail
  | parseFail
  | parsed (d : Fragment)
deriving DecidableEq, Repr

/-- `KnowledgeGraphBuilder.retry_extraction_with_guidance`
(knowledge_graph_builder.py lines 114-151): issue the augmented-prompt call;
on gateway failure or parse failure return `None`; otherwise attach
`original_query` / `original_answer` and return the parsed data as-is —
note: no re-validation and no normalization happen here. -/
def retry_extraction_with_guidance (retry : CallOutcome) (query answer : String) :
    Option Fragment :=
  match retry with
  | .gwFail => none
  | .parseFail => none
  | .parsed d => some (attachOrig d query answer)

/-- `KnowledgeGraphBuilder.extract_relations`
(knowledge_graph_builder.py lines 153-186): first call and parse; on success
attach the originals, validate, and either normalize-and-accept or hand off to
the single guided retry. -/
def extract_relations (first retry : CallOutcome) (query answer : String) :
    Option Fragment :=
  match first with
  | .gwFail => none
  | .parseFail => none
  | .parsed d =>
    let d1 := attachOrig d query answer
    if validate_extraction_result d1 query answer then
      some (normalizeFragment d1 answer)
    else retry_extraction_with_guidance retry query answer

/-- One unit of an input batch: `{query, answer}`. -/
structure QueryUnit where
  query : String
  answer : String
deriving DecidableEq, Repr

/-- Outcome of the single batch-level gateway call plus JSON extraction in
`extract_batch_relations`. -/
inductive BatchOutcome where
  | gwFail
  | parseFail
  | parsed (items : List Fragment)
deriving DecidableEq, Repr

/-- The reconciliation search of `extract_batch_relations`
(knowledge_graph_builder.py lines 217-221): first batch item whose
`original_query` / `original_answer` both match. -/
def findBatchMatch (items : List Fragment) (q a : String) : Option Fragment :=
  items.find? (fun it => it.original_query == some q && it.original_answer == some a)

/-- The per-unit body of the reconciliation loop
(knowledge_graph_builder.py lines 213-238): a matched and valid batch item is
normalized and accepted; otherwise the unit falls back to the full single-unit
`extract_relations`, whose gateway/parse outcomes are the oracle pair. -/
def resolveUnit (items : List Fragment) (u : QueryUnit) (o1 o2 : CallOutcome) :
    Option Fragment :=
  match findBatchMatch items u.query u.answer with
  | some fr =>
    if validate_extraction_result fr u.query u.answer then
      some (normalizeFragment fr u.answer)
    else extract_relations o1 o2 u.query u.answer
  | none => extract_relations o1 o2 u.query u.answer

/-- The reconciliation loop over all units, accumulating accepted fragments
and failed `{query, answer}` records in input order. -/
def batchLoop (items : List Fragment) :
    List (QueryUnit × CallOutcome × CallOutcome) → List Fragment × List QueryUnit
  | [] => ([], [])
  | t :: rest =>
    let res := batchLoop items rest
    match resolveUnit items t.1 t.2.1 t.2.2 with
    | some fr => (fr :: res.1, res.2)
    | none => (res.1, t.1 :: res.2)

/-- `KnowledgeGraphBuilder.extract_batch_relations`
(knowledge_graph_builder.py lines 188-244).  Returns the accepted fragments
together with the `{query, answer}` records appended to `failed_queries`
during the call.  When the batch-level gateway call fails, or the batch
response cannot be parsed, the code returns `[]` without touching any unit
(the two `return []` branches at lines 201 and 244). -/
def extract_batch_relations (b : BatchOutcome)
    (units : List (QueryUnit × CallOutcome × CallOutcome)) :
    List Fragment × List QueryUnit :=
  match b with
  | .gwFail => ([], [])
  | .parseFail => ([], [])
  | .parsed items => batchLoop items units

end GPA

namespace GPA

/-- Fragment used to refute C9: structurally complete, with a single
core-answer relation whose `poison_text` key is absent. -/
def cexRel9 : Relation :=
  { source := "FAIR", target := "YANN LECUN", relation := "led_by",
    context_intent := "who leads", is_core_answer := some true, poison_text := none }

/-- See `cexRel9`. -/
def cexFrag9 : Fragment :=
  { query_analysis := some { core_entity := some "FAIR" },
    entities := some [{ name := "FAIR", type := "org", context_role := "subject" }],
    relations := some [cexRel9],
    original_query := none, original_answer := none }

/-- The core-answer relation of `okFrag`: `poison_text` present. -/
def goodRel : Relation := { cexRel9 with poison_text := some "YANN LECUN" }

/-- A structurally complete fragment whose core-answer relation carries
`poison_text = "YANN LECUN"`; used in witnesses. -/
def okFrag : Fragment :=
  { query_analysis := some { core_entity := some "FAIR" },
    entities := some [{ name := "FAIR", type := "org", context_role := "subject" }],
    relations := some [goodRel],
    original_query := none, original_answer := none }

/-- A relation marked `is_core_answer = true` with a mismatched `poison_text`,
placed after a good core-answer relation in the C10 witness. -/
def badLaterRel : Relation :=
  { source := "X", target := "Y", relation := "r2",
    context_intent := "ci2", is_core_answer := some true, poison_text := none }

/-- `okFrag` with `badLaterRel` appended after the good core-answer relation. -/
def okFrag2 : Fragment := { okFrag with relations := some [goodRel, badLaterRel] }

/-- C3: `validate_extraction_result` returns false when `query_analysis` is
missing, `core_entity` is missing/empty, `entities` is missing/empty,
`relations` is missing/empty, or no relation is marked `is_core_answer = true`;
and it returns true for a fragment meeting all those conditions whose
core-answer relations all carry `poison_text` exactly equal to `answer`. -/
theorem claim_C3_validator_soundness :
    ∀ (d : Fragment) (query answer : String),
      (d.query_analysis = none → validate_extraction_result d query answer = false) ∧
      (∀ qa, d.query_analysis = some qa → coreEntityFalsy qa.core_entity = true →
        validate_extraction_result d query answer = false) ∧
      (d.entities = none ∨ d.entities = some [] →
        validate_extraction_result d query answer = false) ∧
      (d.relations = none ∨ d.relations = some [] →
        validate_extraction_result d query answer = false) ∧
      (∀ rs, d.relations = some rs → (∀ r ∈ rs, r.is_core_answer ≠ some true) →
        validate_extraction_result d query answer = false) ∧
      (∀ qa es rs, d.query_analysis = some qa → coreEntityFalsy qa.core_entity = false →
        d.entities = some es → es ≠ [] → d.relations = some rs →
        (∃ r ∈ rs, r.is_core_answer = some true) →
        (∀ r ∈ rs, r.is_core_answer = some true → r.poison_text = some answer) →
        validate_extraction_result d query answer = true) := by
  intro d query answer
  refine ⟨?_, ?_, ?_, ?_, ?_, ?_⟩
  · intro h
    simp [validate_extraction_result, h]
  · intro qa hqa hce
    simp [validate_extraction_result, hqa, hce]
  · intro h
    rcases hqa : d.query_analysis with _ | qa
    · simp [validate_extraction_result, hqa]
    rcases hce : coreEntityFalsy qa.core_entity
    · rcases h with h | h <;> simp [validate_extraction_result, hqa, hce, h]
    · simp [validate_extraction_result, hqa, hce]
  · intro h
    rcases hqa : d.query_analysis with _ | qa
    · simp [validate_extraction_result, hqa]
    rcases hce : coreEntityFalsy qa.core_entity
    · rcases hes : d.entities with _ | es
      · simp [validate_extraction_result, hqa, hce, hes]
      rcases h with h | h <;>
        simp [validate_extraction_result, hqa, hce, hes, h]
    · simp [validate_extraction_result, hqa, hce]
  · intro rs hrs hno
    rcases hqa : d.query_analysis with _ | qa
    · simp [validate_extraction_result, hqa]
    rcases hce : coreEntityFalsy qa.core_entity
    · rcases hes : d.entities with _ | es
      · simp [validate_extraction_result, hqa, hce, hes]
      by_cases hesne : es = []
      · simp [validate_extraction_result, hqa, hce, hes, hesne]
      by_cases hrsne : rs = []
      · simp [validate_extraction_result, hqa, hce, hes, hrs, hrsne]
      rw [validate_eq_checkCoreAnswer d qa es rs query answer hqa hce hes hesne hrs hrsne]
      exact checkCoreAnswer_of_no_core answer rs hno
    · simp [validate_extraction_result, hqa, hce]
  · intro qa es rs hqa hce hes hesne hrs hex hall
    have hrsne : rs ≠ [] := by
      rcases hex with ⟨r, hr, _⟩
      intro hcon
      rw [hcon] at hr
      simp at hr
    rw [validate_eq_checkCoreAnswer d qa es rs query answer hqa hce hes hesne hrs hrsne]
    exact checkCoreAnswer_of_all_good answer rs hex hall

/-- Witness for C3 at concrete fragments: the missing-`query_analysis` case and
the all-conditions-met case. -/
theorem claim_C3_validator_soundness_witness :
    validate_extraction_result
      { query_analysis := none, entities := none, relations := none,
        original_query := none, original_answer := none } "q" "a" = false ∧
    validate_extraction_result okFrag "q" "YANN LECUN" = true := by
  constructor
  · exact (claim_C3_validator_soundness _ "q" "a").1 rfl
  · exact (claim_C3_validator_soundness okFrag "q" "YANN LECUN").2.2.2.2.2
      { core_entity := some "FAIR" } _ _ rfl rfl rfl (by decide) rfl
      ⟨goodRel, by decide, rfl⟩
      (by decide)

/-- C9 counterexample: a structurally complete fragment whose core-answer
relation lacks the `poison_text` key is rejected by the validator, contrary to
the claim that absence alone does not cause validation to fail
(knowledge_graph_builder.py line 103 tests `"poison_text" not in relation`). -/
theorem claim_C9_counterexample :
    validate_extraction_result cexFrag9 "q" "a" = false ∧
    cexFrag9.query_analysis = some { core_entity := some "FAIR" } ∧
    cexFrag9.entities =
      some [{ name := "FAIR", type := "org", context_role := "subject" }] ∧
    cexFrag9.relations = some [cexRel9] ∧
    cexRel9.is_core_answer = some true ∧
    cexRel9.poison_text = none := by
  decide

/-- C9 amended: on a fragment passing the structural checks whose first
core-answer relation is `r`, validation succeeds precisely when `r.poison_text`
is present and equal to `answer` — in particular an absent `poison_text` makes
validation fail, so the normalization backfill never applies to the core-answer
relation of a fragment accepted on its first validation. -/
theorem claim_C9_amended :
    ∀ (d : Fragment) (qa : QueryAnalysis) (es : List Entity)
      (pre : List Relation) (r : Relation) (post : List Relation)
      (query answer : String),
      d.query_analysis = some qa → coreEntityFalsy qa.core_entity = false →
      d.entities = some es → es ≠ [] →
      d.relations = some (pre ++ r :: post) →
      (∀ x ∈ pre, x.is_core_answer ≠ some true) →
      r.is_core_answer = some true →
      (validate_extraction_result d query answer = true ↔ r.poison_text = some answer) := by
  intro d qa es pre r post query answer hqa hce hes hesne hrs hpre hr
  rw [validate_eq_checkCoreAnswer d qa es (pre ++ r :: post) query answer hqa hce hes hesne hrs
    (by simp)]
  rw [checkCoreAnswer_first answer pre r post hpre hr]
  rcases hp : r.poison_text with _ | p
  · simp
  · simp [beq_iff_eq]

/-- Witness for C9 at the concrete rejected fragment `cexFrag9`. -/
theorem claim_C9_amended_witness :
    validate_extraction_result cexFrag9 "q" "a" = true ↔ cexRel9.poison_text = some "a" := by
  exact claim_C9_amended cexFrag9 { core_entity := some "FAIR" }
    [{ name := "FAIR", type := "org", context_role := "subject" }]
    [] cexRel9 [] "q" "a" rfl rfl rfl (by decide) rfl (by simp) rfl

/-- C10: the validator inspects only the first relation marked
`is_core_answer = true`; when that relation carries `poison_text = answer`,
validation succeeds regardless of the relations after it (which may themselves
be marked core-answer with missing or mismatched `poison_text`). -/
theorem claim_C10_first_core_answer_only :
    ∀ (d : Fragment) (qa : QueryAnalysis) (es : List Entity)
      (pre : List Relation) (r : Relation) (post : List Relation)
      (query answer : String),
      d.query_analysis = some qa → coreEntityFalsy qa.core_entity = false →
      d.entities = some es → es ≠ [] →
      d.relations = some (pre ++ r :: post) →
      (∀ x ∈ pre, x.is_core_answer ≠ some true) →
      r.is_core_answer = some true →
      r.poison_text = some answer →
      validate_extraction_result d query answer = true := by
  intro d qa es pre r post query answer hqa hce hes hesne hrs hpre hr hp
  rw [validate_eq_checkCoreAnswer d qa es (pre ++ r :: post) query answer hqa hce hes hesne hrs
    (by simp)]
  rw [checkCoreAnswer_first answer pre r post hpre hr, hp]
  simp

/-- Witness for C10: a fragment whose first core-answer relation is good and
whose second relation is also marked core-answer with `poison_text` absent is
accepted. -/
theorem claim_C10_first_core_answer_only_witness :
    validate_extraction_result okFrag2 "q" "YANN LECUN" = true := by
  exact claim_C10_first_core_answer_only okFrag2 { core_entity := some "FAIR" }
    [{ name := "FAIR", type := "org", context_role := "subject" }]
    [] goodRel [badLaterRel]
    "q" "YANN LECUN" rfl rfl rfl (by decide) rfl (by simp) rfl rfl

/-- A structurally invalid fragment (empty `entities`), used to refute C1. -/
def cexFrag1 : Fragment :=
  { query_analysis := some { core_entity := some "FAIR" },
    entities := some [],
    relations := some [cexRel9],
    original_query := none, original_answer := none }

/-- C1 counterexample: when the first response parses but fails validation and
the retried response also parses but is again invalid, `extract_relations`
emits the invalid retried fragment instead of rejecting the unit —
`retry_extraction_with_guidance` never re-validates (knowledge_graph_builder.py
lines 136-147 return the parsed data unconditionally). -/
theorem claim_C1_counterexample :
    extract_relations (.parsed cexFrag1) (.parsed cexFrag1) "q" "a"
      = some (attachOrig cexFrag1 "q" "a") ∧
    validate_extraction_result (attachOrig cexFrag1 "q" "a") "q" "a" = false := by
  decide

/-- C1 amended: for a first response that parses but fails validation, exactly
one guided retry is issued, and its response is only parsed, never re-validated
or normalized: any parsed retry result is emitted as the fragment (with the
originals attached), while gateway failure or parse failure on retry yields
rejection with no fragment. -/
theorem claim_C1_amended :
    ∀ (d : Fragment) (retry : CallOutcome) (query answer : String),
      validate_extraction_result (attachOrig d query answer) query answer = false →
      (extract_relations (.parsed d) retry query answer
        = retry_extraction_with_guidance retry query answer) ∧
      retry_extraction_with_guidance .gwFail query answer = none ∧
      retry_extraction_with_guidance .parseFail query answer = none ∧
      ∀ d2, retry_extraction_with_guidance (.parsed d2) query answer
        = some (attachOrig d2 query answer) := by
  intro d retry query answer h
  refine ⟨?_, rfl, rfl, fun d2 => rfl⟩
  simp [extract_relations, h]

/-- Witness for C1 at concrete oracle outcomes. -/
theorem claim_C1_amended_witness :
    (extract_relations (.parsed cexFrag1) (.parsed cexFrag9) "q" "a"
      = retry_extraction_with_guidance (.parsed cexFrag9) "q" "a") ∧
    retry_extraction_with_guidance .gwFail "q" "a" = none ∧
    retry_extraction_with_guidance .parseFail "q" "a" = none ∧
    retry_extraction_with_guidance (.parsed cexFrag9) "q" "a"
      = some (attachOrig cexFrag9 "q" "a") := by
  have h := claim_C1_amended cexFrag1 (.parsed cexFrag9) "q" "a" (by decide)
  exact ⟨h.1, h.2.1, h.2.2.1, h.2.2.2 cexFrag9⟩

lemma batchLoop_spec (items : List Fragment)
    (units : List (QueryUnit × CallOutcome × CallOutcome)) :
    batchLoop items units
      = (units.filterMap (fun t => resolveUnit items t.1 t.2.1 t.2.2),
         (units.filter (fun t => (resolveUnit items t.1 t.2.1 t.2.2).isNone)).map
           (fun t => t.1)) := by
  induction units with
  | nil => rfl
  | cons t rest ih =>
    unfold batchLoop
    rw [ih]
    rcases h : resolveUnit items t.1 t.2.1 t.2.2 with _ | fr
    · simp [h, List.filterMap_cons, List.filter_cons]
    · simp [h, List.filterMap_cons, List.filter_cons]

/-- The unit reused by the C2 counterexample and witness. -/
def wUnit2 : QueryUnit := { query := "q0", answer := "YANN LECUN" }

/-- C2 counterexample: when the batch-level gateway call fails (or the batch
response cannot be parsed), `extract_batch_relations` returns no fragments and
records nothing in the failed-queries list, dropping the unit without a
single-unit fallback attempt — even though the fallback oracle would have
produced an accepted fragment for it. -/
theorem claim_C2_counterexample :
    extract_batch_relations .gwFail [(wUnit2, .parsed okFrag, .gwFail)] = ([], []) ∧
    extract_batch_relations .parseFail [(wUnit2, .parsed okFrag, .gwFail)] = ([], []) ∧
    extract_relations (.parsed okFrag) .gwFail wUnit2.query wUnit2.answer ≠ none := by
  refine ⟨rfl, rfl, ?_⟩
  decide

/-- C2 amended: when the batch response parses, every unit either contributes
one accepted fragment or, after its single-unit fallback returned `None`, one
`{query, answer}` record to the failed-queries list (the failed list is exactly
the units whose `resolveUnit` is `None`, and a `None` resolution always means
the fallback `extract_relations` itself returned `None`); when the batch-level
gateway call fails or the batch response cannot be parsed, the call returns no
fragments and records nothing. -/
theorem claim_C2_amended :
    ∀ (units : List (QueryUnit × CallOutcome × CallOutcome)) (items : List Fragment)
      (u : QueryUnit) (o1 o2 : CallOutcome),
      extract_batch_relations .gwFail units = ([], []) ∧
      extract_batch_relations .parseFail units = ([], []) ∧
      extract_batch_relations (.parsed items) units
        = (units.filterMap (fun t => resolveUnit items t.1 t.2.1 t.2.2),
           (units.filter (fun t => (resolveUnit items t.1 t.2.1 t.2.2).isNone)).map
             (fun t => t.1)) ∧
      (resolveUnit items u o1 o2 = none →
        extract_relations o1 o2 u.query u.answer = none) := by
  intro units items u o1 o2
  refine ⟨rfl, rfl, batchLoop_spec items units, ?_⟩
  intro h
  unfold resolveUnit at h
  rcases hf : findBatchMatch items u.query u.answer with _ | fr
  · rw [hf] at h
    exact h
  · rw [hf] at h
    by_cases hv : validate_extraction_result fr u.query u.answer
    · simp [hv] at h
    · simpa [hv] using h

/-- Witness for C2 at a concrete one-unit batch whose batch output is empty
and whose fallback fails. -/
theorem claim_C2_amended_witness :
    extract_batch_relations (.parsed []) [(wUnit2, .gwFail, .gwFail)] = ([], [wUnit2]) ∧
    extract_relations .gwFail .gwFail wUnit2.query wUnit2.answer = none := by
  have h := claim_C2_amended [(wUnit2, .gwFail, .gwFail)] [] wUnit2 .gwFail .gwFail
  exact ⟨h.2.2.1.trans (by decide), h.2.2.2 (by decide)⟩

end GPA

namespace GPA

/-- Attribute dictionary of a networkx edge as set by `build_knowledge_graph`
(knowledge_graph_builder.py lines 275-283). -/
structure NxEAttrs where
  relation : String
  context_intent : String
  is_core_answer : Bool
  poison_text : Option String
deriving DecidableEq, Repr

/-- A networkx node: `attrs = none` models the empty attribute dictionary of a
node auto-added by `add_edge`; `add_node` always sets `(type, context_role)`. -/
structure NxNode where
  id : String
  attrs : Option (String × String)
deriving DecidableEq, Repr

/-- A networkx directed edge; at most one edge per `(source, target)` pair. -/
structure NxEdge where
  source : String
  target : String
  attrs : NxEAttrs
deriving DecidableEq, Repr

/-- One per-core-entity `nx.DiGraph`, in insertion order. -/
structure NxGraph where
  nodes : List NxNode
  edges : List NxEdge
deriving DecidableEq, Repr

/-- `G.add_node(name, **attrs)`: update the attributes of an existing node in
place, else append. -/
def nxAddNode : List NxNode → String → (String × String) → List NxNode
  | [], k, a => [{ id := k, attrs := some a }]
  | n :: rest, k, a =>
    if n.id = k then { id := n.id, attrs := some a } :: rest
    else n :: nxAddNode rest k a

/-- The implicit node insertion performed by `G.add_edge` for a missing
endpoint: added with an empty attribute dictionary, existing nodes untouched. -/
def nxEnsureNode (ns : List NxNode) (k : String) : List NxNode :=
  if k ∈ ns.map NxNode.id then ns else ns ++ [{ id := k, attrs := none }]

/-- networkx attribute-dictionary update on `add_edge` over an existing edge:
the new attributes overwrite per key; `poison_text`, the only key not always
supplied, survives when the new attributes lack it. -/
def nxUpdEAttrs (old new : NxEAttrs) : NxEAttrs :=
  { relation := new.relation, context_intent := new.context_intent,
    is_core_answer := new.is_core_answer,
    poison_text := match new.poison_text with
      | some p => some p
      | none => old.poison_text }

/-- The edge part of `G.add_edge(u, v, **attrs)`: update in place if an edge
keyed `(u, v)` exists, else append. -/
def nxUpsertEdge : List NxEdge → String → String → NxEAttrs → List NxEdge
  | [], u, v, a => [{ source := u, target := v, attrs := a }]
  | e :: rest, u, v, a =>
    if e.source = u ∧ e.target = v then
      { source := e.source, target := e.target, attrs := nxUpdEAttrs e.attrs a } :: rest
    else e :: nxUpsertEdge rest u v a

/-- `G.add_edge(u, v, **attrs)`: ensure both endpoints exist, then upsert the
edge. -/
def nxAddEdge (g : NxGraph) (u v : String) (a : NxEAttrs) : NxGraph :=
  { nodes := nxEnsureNode (nxEnsureNode g.nodes u) v,
    edges := nxUpsertEdge g.edges u v a }

/-- The `edge_attrs` dictionary built from one relation
(knowledge_graph_builder.py lines 275-283): `is_core_answer` defaults to
`False`; `poison_text` is set only on a relation marked core-answer that
carries it. -/
def relationToNxAttrs (r : Relation) : NxEAttrs :=
  { relation := r.relation, context_intent := r.context_intent,
    is_core_answer := r.is_core_answer.getD false,
    poison_text := if r.is_core_answer = some true then r.poison_text else none }

/-- The entity loop of `build_knowledge_graph`
(knowledge_graph_builder.py lines 267-272). -/
def mergeEntsN (ns : List NxNode) (es : List Entity) : List NxNode :=
  es.foldl (fun acc e => nxAddNode acc e.name (e.type, e.context_role)) ns

/-- The relation loop of `build_knowledge_graph`
(knowledge_graph_builder.py lines 274-289). -/
def mergeRels (g : NxGraph) (rs : List Relation) : NxGraph :=
  rs.foldl (fun acc r => nxAddEdge acc r.source r.target (relationToNxAttrs r)) g

/-- Merging one fragment's entities and relations into its per-core-entity
graph, the body of `build_knowledge_graph`'s per-fragment loop. -/
def mergeFragmentGraph (g : NxGraph) (es : List Entity) (rs : List Relation) : NxGraph :=
  mergeRels { nodes := mergeEntsN g.nodes es, edges := g.edges } rs

/-- A node of the persisted `{nodes, edges}` structure
(knowledge_graph_builder.py lines 312-318). -/
structure SNode where
  id : String
  type : String
  context_role : String
deriving DecidableEq, Repr

/-- An edge of the persisted `{nodes, edges}` structure
(knowledge_graph_builder.py lines 320-331). -/
structure SEdge where
  source : String
  target : String
  relation : String
  context_intent : String
  is_core_answer : Bool
  poison_text : Option String
deriving DecidableEq, Repr

/-- The persisted per-core-entity structure written to `graph_data.json`. -/
structure SavedGraph where
  nodes : List SNode
  edges : List SEdge
deriving DecidableEq, Repr

/-- The de-duplication key `(source, target, relation)` of a persisted edge. -/
def edgeKey (e : SEdge) : String × String × String := (e.source, e.target, e.relation)

/-- The duplicate test of `save_knowledge_graph`
(knowledge_graph_builder.py lines 335-337). -/
abbrev sameEdgeKey (x e : SEdge) : Prop :=
  x.source = e.source ∧ x.target = e.target ∧ x.relation = e.relation

/-- The node de-duplication of `save_knowledge_graph`
(knowledge_graph_builder.py lines 312-318): append only when no node with this
`id` exists; never update an existing node (first-seen wins). -/
def savedAddNode (ns : List SNode) (e : Entity) : List SNode :=
  if e.name ∈ ns.map SNode.id then ns
  else ns ++ [{ id := e.name, type := e.type, context_role := e.context_role }]

/-- The edge upsert of `save_knowledge_graph`
(knowledge_graph_builder.py lines 333-345): scan for the first edge with the
same `(source, target, relation)` key; if found, optionally copy `poison_text`
onto it (only when the new edge has it and the existing one lacks it) and do
not append; else append at the end. -/
def upsertSavedEdge : List SEdge → SEdge → List SEdge
  | [], e => [e]
  | x :: xs, e =>
    if sameEdgeKey x e then
      (if e.poison_text.isSome ∧ x.poison_text = none then
        { x with poison_text := e.poison_text } else x) :: xs
    else x :: upsertSavedEdge xs e

/-- The persisted edge built from one relation
(knowledge_graph_builder.py lines 320-331). -/
def relationToSEdge (r : Relation) : SEdge :=
  { source := r.source, target := r.target, relation := r.relation,
    context_intent := r.context_intent,
    is_core_answer := r.is_core_answer.getD false,
    poison_text := if r.is_core_answer = some true then r.poison_text else none }

/-- Merging one fragment into the persisted `{nodes, edges}` structure, the
body of `save_knowledge_graph`'s per-fragment loop (lines 300-345). -/
def mergeFragmentSaved (g : SavedGraph) (es : List Entity) (rs : List Relation) :
    SavedGraph :=
  { nodes := es.foldl savedAddNode g.nodes,
    edges := rs.foldl (fun acc r => upsertSavedEdge acc (relationToSEdge r)) g.edges }

section FoldKeys

variable {α β γ : Type}

lemma foldl_keys_mono (f : β → α) (step : List β → γ → List β)
    (smono : ∀ ns x j, j ∈ ns.map f → j ∈ (step ns x).map f) :
    ∀ (xs : List γ) (ns : List β) (j : α), j ∈ ns.map f → j ∈ (xs.foldl step ns).map f := by
  intro xs
  induction xs with
  | nil => intro ns j h; exact h
  | cons x xs ih => intro ns j h; exact ih (step ns x) j (smono ns x j h)

lemma foldl_keys_all (f : β → α) (step : List β → γ → List β) (keysOf : γ → List α)
    (smono : ∀ ns x j, j ∈ ns.map f → j ∈ (step ns x).map f)
    (sself : ∀ ns x, ∀ k ∈ keysOf x, k ∈ (step ns x).map f) :
    ∀ (xs : List γ) (ns : List β) (x : γ), x ∈ xs →
      ∀ k ∈ keysOf x, k ∈ (xs.foldl step ns).map f := by
  intro xs
  induction xs with
  | nil => intro ns x hx; simp at hx
  | cons y ys ih =>
    intro ns x hx k hk
    rcases List.mem_cons.mp hx with h | h
    · subst h
      exact foldl_keys_mono f step smono ys (step ns x) k (sself ns x k hk)
    · exact ih (step ns y) x h k hk

lemma foldl_keys_stable (f : β → α) (step : List β → γ → List β) (keysOf : γ → List α)
    (sstable : ∀ ns x, (∀ k ∈ keysOf x, k ∈ ns.map f) → (step ns x).map f = ns.map f) :
    ∀ (xs : List γ) (ns : List β), (∀ x ∈ xs, ∀ k ∈ keysOf x, k ∈ ns.map f) →
      (xs.foldl step ns).map f = ns.map f := by
  intro xs
  induction xs with
  | nil => intro ns _; rfl
  | cons y ys ih =>
    intro ns h
    have hstep := sstable ns y (h y (List.mem_cons_self y ys))
    have hrest : ∀ x ∈ ys, ∀ k ∈ keysOf x, k ∈ (step ns y).map f := by
      intro x hx k hk
      rw [hstep]
      exact h x (List.mem_cons_of_mem y hx) k hk
    rw [List.foldl_cons, ih (step ns y) hrest, hstep]

end FoldKeys

lemma nxAddNode_map_id (ns : List NxNode) (k : String) (a : String × String) :
    (nxAddNode ns k a).map NxNode.id =
      if k ∈ ns.map NxNode.id then ns.map NxNode.id else ns.map NxNode.id ++ [k] := by
  induction ns with
  | nil => simp [nxAddNode]
  | cons n rest ih =>
    by_cases hk : n.id = k
    · simp [nxAddNode, hk]
    · have hk2 : k ≠ n.id := fun h => hk h.symm
      simp only [nxAddNode, if_neg hk, List.map_cons]
      rw [ih]
      by_cases hm : k ∈ rest.map NxNode.id
      · simp [hm, hk2]
      · simp [hm, hk2]

lemma nxEnsureNode_map_id (ns : List NxNode) (k : String) :
    (nxEnsureNode ns k).map NxNode.id =
      if k ∈ ns.map NxNode.id then ns.map NxNode.id else ns.map NxNode.id ++ [k] := by
  unfold nxEnsureNode
  split <;> simp

lemma nxUpsertEdge_map_key (es : List NxEdge) (u v : String) (a : NxEAttrs) :
    (nxUpsertEdge es u v a).map (fun e => (e.source, e.target)) =
      if (u, v) ∈ es.map (fun e => (e.source, e.target)) then
        es.map (fun e => (e.source, e.target))
      else es.map (fun e => (e.source, e.target)) ++ [(u, v)] := by
  induction es with
  | nil => simp [nxUpsertEdge]
  | cons x xs ih =>
    by_cases hk : x.source = u ∧ x.target = v
    · simp [nxUpsertEdge, hk, hk.1, hk.2]
    · have hk2 : ¬((u, v) = (x.source, x.target)) := by
        intro h
        rw [Prod.mk.injEq] at h
        exact hk ⟨h.1.symm, h.2.symm⟩
      simp only [nxUpsertEdge, if_neg hk, List.map_cons]
      rw [ih]
      by_cases hm : (u, v) ∈ xs.map (fun e => (e.source, e.target))
      · simp [hm, hk2]
      · simp [hm, hk2]

lemma savedAddNode_map_id (ns : List SNode) (e : Entity) :
    (savedAddNode ns e).map SNode.id =
      if e.name ∈ ns.map SNode.id then ns.map SNode.id else ns.map SNode.id ++ [e.name] := by
  unfold savedAddNode
  split <;> simp

lemma sameEdgeKey_iff (x e : SEdge) : sameEdgeKey x e ↔ edgeKey x = edgeKey e := by
  simp [edgeKey, Prod.ext_iff]

lemma upsertSavedEdge_map_key (es : List SEdge) (e : SEdge) :
    (upsertSavedEdge es e).map edgeKey =
      if edgeKey e ∈ es.map edgeKey then es.map edgeKey
      else es.map edgeKey ++ [edgeKey e] := by
  induction es with
  | nil => simp [upsertSavedEdge]
  | cons x xs ih =>
    by_cases hk : sameEdgeKey x e
    · have hkey : edgeKey x = edgeKey e := (sameEdgeKey_iff x e).mp hk
      simp only [upsertSavedEdge, if_pos hk, List.map_cons]
      have h2 : edgeKey (if e.poison_text.isSome ∧ x.poison_text = none then
          { x with poison_text := e.poison_text } else x) = edgeKey x := by
        split <;> rfl
      rw [h2, hkey]
      simp
    · have hkey : edgeKey e ≠ edgeKey x := fun h => hk ((sameEdgeKey_iff x e).mpr h.symm)
      simp only [upsertSavedEdge, if_neg hk, List.map_cons]
      rw [ih]
      by_cases hm : edgeKey e ∈ xs.map edgeKey
      · simp [hm, hkey]
      · simp [hm, hkey]

lemma nxAddNode_mem_mono (ns : List NxNode) (k : String) (a : String × String)
    (j : String) (h : j ∈ ns.map NxNode.id) : j ∈ (nxAddNode ns k a).map NxNode.id := by
  rw [nxAddNode_map_id]
  by_cases hm : k ∈ ns.map NxNode.id
  · rw [if_pos hm]; exact h
  · rw [if_neg hm]; exact List.mem_append_left _ h

lemma nxAddNode_mem_self (ns : List NxNode) (k : String) (a : String × String) :
    k ∈ (nxAddNode ns k a).map NxNode.id := by
  rw [nxAddNode_map_id]
  by_cases hm : k ∈ ns.map NxNode.id
  · rw [if_pos hm]; exact hm
  · rw [if_neg hm]; simp

lemma nxAddNode_keys_stable (ns : List NxNode) (k : String) (a : String × String)
    (h : k ∈ ns.map NxNode.id) : (nxAddNode ns k a).map NxNode.id = ns.map NxNode.id := by
  rw [nxAddNode_map_id, if_pos h]

lemma nxEnsureNode_mem_mono (ns : List NxNode) (k : String)
    (j : String) (h : j ∈ ns.map NxNode.id) : j ∈ (nxEnsureNode ns k).map NxNode.id := by
  rw [nxEnsureNode_map_id]
  by_cases hm : k ∈ ns.map NxNode.id
  · rw [if_pos hm]; exact h
  · rw [if_neg hm]; exact List.mem_append_left _ h

lemma nxEnsureNode_mem_self (ns : List NxNode) (k : String) :
    k ∈ (nxEnsureNode ns k).map NxNode.id := by
  rw [nxEnsureNode_map_id]
  by_cases hm : k ∈ ns.map NxNode.id
  · rw [if_pos hm]; exact hm
  · rw [if_neg hm]; simp

lemma nxEnsureNode_keys_stable (ns : List NxNode) (k : String)
    (h : k ∈ ns.map NxNode.id) : (nxEnsureNode ns k).map NxNode.id = ns.map NxNode.id := by
  rw [nxEnsureNode_map_id, if_pos h]

lemma nxUpsertEdge_mem_mono (es : List NxEdge) (u v : String) (a : NxEAttrs)
    (j : String × String) (h : j ∈ es.map (fun e => (e.source, e.target))) :
    j ∈ (nxUpsertEdge es u v a).map (fun e => (e.source, e.target)) := by
  rw [nxUpsertEdge_map_key]
  by_cases hm : (u, v) ∈ es.map (fun e => (e.source, e.target))
  · rw [if_pos hm]; exact h
  · rw [if_neg hm]; exact List.mem_append_left _ h

lemma nxUpsertEdge_mem_self (es : List NxEdge) (u v : String) (a : NxEAttrs) :
    (u, v) ∈ (nxUpsertEdge es u v a).map (fun e => (e.source, e.target)) := by
  rw [nxUpsertEdge_map_key]
  by_cases hm : (u, v) ∈ es.map (fun e => (e.source, e.target))
  · rw [if_pos hm]; exact hm
  · rw [if_neg hm]; simp

lemma nxUpsertEdge_keys_stable (es : List NxEdge) (u v : String) (a : NxEAttrs)
    (h : (u, v) ∈ es.map (fun e => (e.source, e.target))) :
    (nxUpsertEdge es u v a).map (fun e => (e.source, e.target))
      = es.map (fun e => (e.source, e.target)) := by
  rw [nxUpsertEdge_map_key, if_pos h]

lemma savedAddNode_mem_mono (ns : List SNode) (e : Entity)
    (j : String) (h : j ∈ ns.map SNode.id) : j ∈ (savedAddNode ns e).map SNode.id := by
  rw [savedAddNode_map_id]
  by_cases hm : e.name ∈ ns.map SNode.id
  · rw [if_pos hm]; exact h
  · rw [if_neg hm]; exact List.mem_append_left _ h

lemma savedAddNode_mem_self (ns : List SNode) (e : Entity) :
    e.name ∈ (savedAddNode ns e).map SNode.id := by
  rw [savedAddNode_map_id]
  by_cases hm : e.name ∈ ns.map SNode.id
  · rw [if_pos hm]; exact hm
  · rw [if_neg hm]; simp

lemma savedAddNode_keys_stable (ns : List SNode) (e : Entity)
    (h : e.name ∈ ns.map SNode.id) : (savedAddNode ns e).map SNode.id = ns.map SNode.id := by
  rw [savedAddNode_map_id, if_pos h]

lemma upsertSavedEdge_mem_mono (es : List SEdge) (e : SEdge)
    (j : String × String × String) (h : j ∈ es.map edgeKey) :
    j ∈ (upsertSavedEdge es e).map edgeKey := by
  rw [upsertSavedEdge_map_key]
  by_cases hm : edgeKey e ∈ es.map edgeKey
  · rw [if_pos hm]; exact h
  · rw [if_neg hm]; exact List.mem_append_left _ h

lemma upsertSavedEdge_mem_self (es : List SEdge) (e : SEdge) :
    edgeKey e ∈ (upsertSavedEdge es e).map edgeKey := by
  rw [upsertSavedEdge_map_key]
  by_cases hm : edgeKey e ∈ es.map edgeKey
  · rw [if_pos hm]; exact hm
  · rw [if_neg hm]; simp

lemma upsertSavedEdge_keys_stable (es : List SEdge) (e : SEdge)
    (h : edgeKey e ∈ es.map edgeKey) :
    (upsertSavedEdge es e).map edgeKey = es.map edgeKey := by
  rw [upsertSavedEdge_map_key, if_pos h]

lemma mergeRels_eq : ∀ (rs : List Relation) (g : NxGraph),
    mergeRels g rs =
      { nodes := rs.foldl (fun ns r => nxEnsureNode (nxEnsureNode ns r.source) r.target) g.nodes,
        edges := rs.foldl (fun es r => nxUpsertEdge es r.source r.target (relationToNxAttrs r))
          g.edges } := by
  intro rs
  induction rs with
  | nil => intro g; rfl
  | cons r rest ih =>
    intro g
    have h1 : mergeRels g (r :: rest)
        = mergeRels (nxAddEdge g r.source r.target (relationToNxAttrs r)) rest := rfl
    rw [h1, ih]
    rfl

lemma mergeRels_nodes_eq (rs : List Relation) (g : NxGraph) :
    (mergeRels g rs).nodes =
      rs.foldl (fun ns r => nxEnsureNode (nxEnsureNode ns r.source) r.target) g.nodes := by
  rw [mergeRels_eq]

lemma mergeRels_edges_eq (rs : List Relation) (g : NxGraph) :
    (mergeRels g rs).edges =
      rs.foldl (fun es r => nxUpsertEdge es r.source r.target (relationToNxAttrs r)) g.edges := by
  rw [mergeRels_eq]

lemma mergeEntsN_mem_mono (es : List Entity) (ns : List NxNode) (j : String)
    (h : j ∈ ns.map NxNode.id) : j ∈ (mergeEntsN ns es).map NxNode.id := by
  unfold mergeEntsN
  exact foldl_keys_mono NxNode.id _
    (fun ns e j h => nxAddNode_mem_mono ns e.name (e.type, e.context_role) j h) es ns j h

lemma mergeEntsN_mem_all (es : List Entity) (ns : List NxNode) (e : Entity)
    (he : e ∈ es) : e.name ∈ (mergeEntsN ns es).map NxNode.id := by
  unfold mergeEntsN
  exact foldl_keys_all NxNode.id _ (fun e => [e.name])
    (fun ns x j h => nxAddNode_mem_mono ns x.name (x.type, x.context_role) j h)
    (fun ns x k hk => by
      rw [List.mem_singleton.mp hk]
      exact nxAddNode_mem_self ns x.name (x.type, x.context_role))
    es ns e he e.name (List.mem_singleton_self _)

lemma mergeEntsN_keys_stable (es : List Entity) (ns : List NxNode)
    (h : ∀ e ∈ es, e.name ∈ ns.map NxNode.id) :
    (mergeEntsN ns es).map NxNode.id = ns.map NxNode.id := by
  unfold mergeEntsN
  exact foldl_keys_stable NxNode.id _ (fun e => [e.name])
    (fun ns x hx =>
      nxAddNode_keys_stable ns x.name (x.type, x.context_role)
        (hx x.name (List.mem_singleton_self _)))
    es ns (fun x hx k hk => by rw [List.mem_singleton.mp hk]; exact h x hx)

lemma mergeRels_nodes_mem_mono (rs : List Relation) (g : NxGraph) (j : String)
    (h : j ∈ g.nodes.map NxNode.id) : j ∈ (mergeRels g rs).nodes.map NxNode.id := by
  rw [mergeRels_nodes_eq]
  exact foldl_keys_mono NxNode.id _
    (fun ns r j h =>
      nxEnsureNode_mem_mono _ r.target j (nxEnsureNode_mem_mono ns r.source j h))
    rs g.nodes j h

lemma mergeRels_nodes_mem_all (rs : List Relation) (g : NxGraph) (r : Relation)
    (hr : r ∈ rs) :
    r.source ∈ (mergeRels g rs).nodes.map NxNode.id ∧
    r.target ∈ (mergeRels g rs).nodes.map NxNode.id := by
  rw [mergeRels_nodes_eq]
  have hall := foldl_keys_all NxNode.id
    (fun ns r => nxEnsureNode (nxEnsureNode ns r.source) r.target)
    (fun r => [r.source, r.target])
    (fun ns x j h =>
      nxEnsureNode_mem_mono _ x.target j (nxEnsureNode_mem_mono ns x.source j h))
    (fun ns x k hk => by
      rcases List.mem_cons.mp hk with h1 | h1
      · rw [h1]
        exact nxEnsureNode_mem_mono _ x.target _ (nxEnsureNode_mem_self ns x.source)
      · rw [List.mem_singleton.mp h1]
        exact nxEnsureNode_mem_self _ x.target)
    rs g.nodes r hr
  exact ⟨hall r.source (by simp), hall r.target (by simp)⟩

lemma mergeRels_nodes_keys_stable (rs : List Relation) (g : NxGraph)
    (h : ∀ r ∈ rs, r.source ∈ g.nodes.map NxNode.id ∧ r.target ∈ g.nodes.map NxNode.id) :
    (mergeRels g rs).nodes.map NxNode.id = g.nodes.map NxNode.id := by
  rw [mergeRels_nodes_eq]
  refine foldl_keys_stable NxNode.id _ (fun r => [r.source, r.target]) ?_ rs g.nodes ?_
  · intro ns x hx
    have hsrc := hx x.source (by simp)
    have htgt := hx x.target (by simp)
    have h1 := nxEnsureNode_keys_stable ns x.source hsrc
    have h2 : x.target ∈ (nxEnsureNode ns x.source).map NxNode.id := by
      rw [h1]; exact htgt
    rw [nxEnsureNode_keys_stable _ x.target h2, h1]
  · intro x hx k hk
    rcases List.mem_cons.mp hk with h1 | h1
    · rw [h1]; exact (h x hx).1
    · rw [List.mem_singleton.mp h1]; exact (h x hx).2

lemma mergeRels_edges_mem_all (rs : List Relation) (g : NxGraph) (r : Relation)
    (hr : r ∈ rs) :
    (r.source, r.target) ∈ (mergeRels g rs).edges.map (fun e => (e.source, e.target)) := by
  rw [mergeRels_edges_eq]
  exact foldl_keys_all (fun e => (e.source, e.target)) _ (fun r => [(r.source, r.target)])
    (fun es x j h => nxUpsertEdge_mem_mono es x.source x.target _ j h)
    (fun es x k hk => by
      rw [List.mem_singleton.mp hk]
      exact nxUpsertEdge_mem_self es x.source x.target _)
    rs g.edges r hr (r.source, r.target) (List.mem_singleton_self _)

lemma mergeRels_edges_keys_stable (rs : List Relation) (g : NxGraph)
    (h : ∀ r ∈ rs, (r.source, r.target) ∈ g.edges.map (fun e => (e.source, e.target))) :
    (mergeRels g rs).edges.map (fun e => (e.source, e.target))
      = g.edges.map (fun e => (e.source, e.target)) := by
  rw [mergeRels_edges_eq]
  exact foldl_keys_stable (fun e => (e.source, e.target)) _ (fun r => [(r.source, r.target)])
    (fun es x hx =>
      nxUpsertEdge_keys_stable es x.source x.target _ (hx _ (List.mem_singleton_self _)))
    rs g.edges (fun x hx k hk => by rw [List.mem_singleton.mp hk]; exact h x hx)

lemma savedNodesFold_mem_all (es : List Entity) (ns : List SNode) (e : Entity)
    (he : e ∈ es) : e.name ∈ (es.foldl savedAddNode ns).map SNode.id :=
  foldl_keys_all SNode.id _ (fun e => [e.name])
    (fun ns x j h => savedAddNode_mem_mono ns x j h)
    (fun ns x k hk => by
      rw [List.mem_singleton.mp hk]
      exact savedAddNode_mem_self ns x)
    es ns e he e.name (List.mem_singleton_self _)

lemma savedNodesFold_keys_stable (es : List Entity) (ns : List SNode)
    (h : ∀ e ∈ es, e.name ∈ ns.map SNode.id) :
    (es.foldl savedAddNode ns).map SNode.id = ns.map SNode.id :=
  foldl_keys_stable SNode.id _ (fun e => [e.name])
    (fun ns x hx => savedAddNode_keys_stable ns x (hx x.name (List.mem_singleton_self _)))
    es ns (fun x hx k hk => by rw [List.mem_singleton.mp hk]; exact h x hx)

lemma savedEdgesFold_mem_all (rs : List Relation) (es0 : List SEdge) (r : Relation)
    (hr : r ∈ rs) :
    edgeKey (relationToSEdge r)
      ∈ (rs.foldl (fun acc r => upsertSavedEdge acc (relationToSEdge r)) es0).map edgeKey :=
  foldl_keys_all edgeKey _ (fun r => [edgeKey (relationToSEdge r)])
    (fun es x j h => upsertSavedEdge_mem_mono es (relationToSEdge x) j h)
    (fun es x k hk => by
      rw [List.mem_singleton.mp hk]
      exact upsertSavedEdge_mem_self es (relationToSEdge x))
    rs es0 r hr _ (List.mem_singleton_self _)

lemma savedEdgesFold_keys_stable (rs : List Relation) (es0 : List SEdge)
    (h : ∀ r ∈ rs, edgeKey (relationToSEdge r) ∈ es0.map edgeKey) :
    (rs.foldl (fun acc r => upsertSavedEdge acc (relationToSEdge r)) es0).map edgeKey
      = es0.map edgeKey :=
  foldl_keys_stable edgeKey _ (fun r => [edgeKey (relationToSEdge r)])
    (fun es x hx =>
      upsertSavedEdge_keys_stable es (relationToSEdge x) (hx _ (List.mem_singleton_self _)))
    rs es0 (fun x hx k hk => by rw [List.mem_singleton.mp hk]; exact h x hx)

lemma mergeFragmentGraph_keys_all (g : NxGraph) (es : List Entity) (rs : List Relation) :
    (∀ e ∈ es, e.name ∈ (mergeFragmentGraph g es rs).nodes.map NxNode.id) ∧
    (∀ r ∈ rs, r.source ∈ (mergeFragmentGraph g es rs).nodes.map NxNode.id ∧
      r.target ∈ (mergeFragmentGraph g es rs).nodes.map NxNode.id) ∧
    (∀ r ∈ rs, (r.source, r.target)
      ∈ (mergeFragmentGraph g es rs).edges.map (fun e => (e.source, e.target))) := by
  unfold mergeFragmentGraph
  refine ⟨?_, ?_, ?_⟩
  · intro e he
    exact mergeRels_nodes_mem_mono rs _ e.name (mergeEntsN_mem_all es g.nodes e he)
  · intro r hr
    exact mergeRels_nodes_mem_all rs _ r hr
  · intro r hr
    exact mergeRels_edges_mem_all rs _ r hr

lemma mergeFragmentGraph_counts_stable (g1 : NxGraph) (es : List Entity) (rs : List Relation)
    (hent : ∀ e ∈ es, e.name ∈ g1.nodes.map NxNode.id)
    (hrel : ∀ r ∈ rs, r.source ∈ g1.nodes.map NxNode.id ∧ r.target ∈ g1.nodes.map NxNode.id)
    (hredge : ∀ r ∈ rs,
      (r.source, r.target) ∈ g1.edges.map (fun e => (e.source, e.target))) :
    (mergeFragmentGraph g1 es rs).nodes.length = g1.nodes.length ∧
    (mergeFragmentGraph g1 es rs).edges.length = g1.edges.length := by
  have hmid : (mergeEntsN g1.nodes es).map NxNode.id = g1.nodes.map NxNode.id :=
    mergeEntsN_keys_stable es g1.nodes hent
  have hN : (mergeFragmentGraph g1 es rs).nodes.map NxNode.id = g1.nodes.map NxNode.id := by
    unfold mergeFragmentGraph
    rw [mergeRels_nodes_keys_stable rs _ ?_]
    · exact hmid
    · intro r hr
      constructor
      · show r.source ∈ (mergeEntsN g1.nodes es).map NxNode.id
        rw [hmid]; exact (hrel r hr).1
      · show r.target ∈ (mergeEntsN g1.nodes es).map NxNode.id
        rw [hmid]; exact (hrel r hr).2
  have hE : (mergeFragmentGraph g1 es rs).edges.map (fun e => (e.source, e.target))
      = g1.edges.map (fun e => (e.source, e.target)) := by
    unfold mergeFragmentGraph
    exact mergeRels_edges_keys_stable rs _ hredge
  constructor
  · rw [← List.length_map (mergeFragmentGraph g1 es rs).nodes NxNode.id, hN,
      List.length_map]
  · rw [← List.length_map (mergeFragmentGraph g1 es rs).edges
      (fun e => (e.source, e.target)), hE, List.length_map]

lemma mergeFragmentSaved_keys_all (g : SavedGraph) (es : List Entity) (rs : List Relation) :
    (∀ e ∈ es, e.name ∈ (mergeFragmentSaved g es rs).nodes.map SNode.id) ∧
    (∀ r ∈ rs, edgeKey (relationToSEdge r)
      ∈ (mergeFragmentSaved g es rs).edges.map edgeKey) := by
  constructor
  · intro e he
    exact savedNodesFold_mem_all es g.nodes e he
  · intro r hr
    exact savedEdgesFold_mem_all rs g.edges r hr

lemma mergeFragmentSaved_counts_stable (g1 : SavedGraph) (es : List Entity)
    (rs : List Relation)
    (hent : ∀ e ∈ es, e.name ∈ g1.nodes.map SNode.id)
    (hredge : ∀ r ∈ rs, edgeKey (relationToSEdge r) ∈ g1.edges.map edgeKey) :
    (mergeFragmentSaved g1 es rs).nodes.length = g1.nodes.length ∧
    (mergeFragmentSaved g1 es rs).edges.length = g1.edges.length := by
  have hN : (mergeFragmentSaved g1 es rs).nodes.map SNode.id = g1.nodes.map SNode.id :=
    savedNodesFold_keys_stable es g1.nodes hent
  have hE : (mergeFragmentSaved g1 es rs).edges.map edgeKey = g1.edges.map edgeKey :=
    savedEdgesFold_keys_stable rs g1.edges hredge
  constructor
  · rw [← List.length_map (mergeFragmentSaved g1 es rs).nodes SNode.id, hN,
      List.length_map]
  · rw [← List.length_map (mergeFragmentSaved g1 es rs).edges edgeKey, hE,
      List.length_map]

/-- C5: merging the same fragment twice is count-idempotent, both for the
per-core-entity networkx graph built by `build_knowledge_graph` (nodes keyed
by name, edges keyed by `(source, target)`) and for the persisted
`{nodes, edges}` structure built by `save_knowledge_graph` (nodes de-duplicated
by `id`, edges de-duplicated by `(source, target, relation)`): the node and
edge counts after the second merge equal the counts after the first. -/
theorem claim_C5_merge_idempotent :
    ∀ (g : NxGraph) (gd : SavedGraph) (es : List Entity) (rs : List Relation),
      ((mergeFragmentGraph (mergeFragmentGraph g es rs) es rs).nodes.length
          = (mergeFragmentGraph g es rs).nodes.length ∧
       (mergeFragmentGraph (mergeFragmentGraph g es rs) es rs).edges.length
          = (mergeFragmentGraph g es rs).edges.length) ∧
      ((mergeFragmentSaved (mergeFragmentSaved gd es rs) es rs).nodes.length
          = (mergeFragmentSaved gd es rs).nodes.length ∧
       (mergeFragmentSaved (mergeFragmentSaved gd es rs) es rs).edges.length
          = (mergeFragmentSaved gd es rs).edges.length) := by
  intro g gd es rs
  constructor
  · obtain ⟨hent, hrel, hredge⟩ := mergeFragmentGraph_keys_all g es rs
    exact mergeFragmentGraph_counts_stable (mergeFragmentGraph g es rs) es rs hent hrel hredge
  · obtain ⟨hent, hredge⟩ := mergeFragmentSaved_keys_all gd es rs
    exact mergeFragmentSaved_counts_stable (mergeFragmentSaved gd es rs) es rs hent hredge

lemma upsertSavedEdge_cons (y : SEdge) (ys : List SEdge) (e : SEdge) :
    upsertSavedEdge (y :: ys) e =
      if sameEdgeKey y e then
        (if e.poison_text.isSome ∧ y.poison_text = none then
          { y with poison_text := e.poison_text } else y) :: ys
      else y :: upsertSavedEdge ys e := rfl

lemma upsertSavedEdge_keeps_poisoned (es : List SEdge) (e : SEdge) (x : SEdge) (p : String)
    (hx : x ∈ es) (hp : x.poison_text = some p) : x ∈ upsertSavedEdge es e := by
  induction es with
  | nil => simp at hx
  | cons y ys ih =>
    rcases List.mem_cons.mp hx with h1 | h1
    · subst h1
      rw [upsertSavedEdge_cons]
      by_cases hk : sameEdgeKey x e
      · rw [if_pos hk]
        have hcond : ¬(e.poison_text.isSome ∧ x.poison_text = none) := by
          intro hc
          rw [hp] at hc
          exact Option.some_ne_none p hc.2
        rw [if_neg hcond]
        exact List.mem_cons_self x ys
      · rw [if_neg hk]
        exact List.mem_cons_self x (upsertSavedEdge ys e)
    · rw [upsertSavedEdge_cons]
      by_cases hk : sameEdgeKey y e
      · rw [if_pos hk]
        exact List.mem_cons_of_mem _ h1
      · rw [if_neg hk]
        exact List.mem_cons_of_mem y (ih h1)

lemma sameEdgeKey_update_poison (x e : SEdge) (p : Option String) :
    sameEdgeKey { x with poison_text := p } e ↔ sameEdgeKey x e := Iff.rfl

lemma upsertSavedEdge_enrich (es : List SEdge) (e : SEdge) (x : SEdge)
    (hfind : List.find? (fun y => decide (sameEdgeKey y e)) es = some x)
    (hx : x.poison_text = none) (he : e.poison_text.isSome) :
    (upsertSavedEdge es e).length = es.length ∧
    List.find? (fun y => decide (sameEdgeKey y e)) (upsertSavedEdge es e)
      = some { x with poison_text := e.poison_text } := by
  induction es with
  | nil => simp at hfind
  | cons y ys ih =>
    by_cases hk : sameEdgeKey y e
    · have hfy : List.find? (fun y => decide (sameEdgeKey y e)) (y :: ys) = some y :=
        List.find?_cons_of_pos ys (by simpa using hk)
      rw [hfy] at hfind
      have hyx : y = x := by injection hfind
      subst hyx
      rw [upsertSavedEdge_cons, if_pos hk, if_pos ⟨he, hx⟩]
      constructor
      · simp
      · exact List.find?_cons_of_pos ys (by simpa using hk)
    · have hfy : List.find? (fun y => decide (sameEdgeKey y e)) (y :: ys)
          = List.find? (fun y => decide (sameEdgeKey y e)) ys :=
        List.find?_cons_of_neg ys (by simpa using hk)
      rw [hfy] at hfind
      rw [upsertSavedEdge_cons, if_neg hk]
      constructor
      · simp [(ih hfind).1]
      · rw [List.find?_cons_of_neg _ (by simpa using hk)]
        exact (ih hfind).2

/-- Persisted edge used by the C8 counterexample: key `(A, B, rel)`, no
`poison_text`. -/
def cexEdge8 : SEdge :=
  { source := "A", target := "B", relation := "rel", context_intent := "ci",
    is_core_answer := false, poison_text := none }

/-- Relation used by the C8 counterexample: same `(A, B, rel)` key, carrying
`poison_text = "P"` but with `is_core_answer = false`. -/
def cexRel8 : Relation :=
  { source := "A", target := "B", relation := "rel", context_intent := "ci",
    is_core_answer := some false, poison_text := some "P" }

/-- `cexEdge8` with `poison_text` present, for the never-erased witness. -/
def pEdge8 : SEdge := { cexEdge8 with poison_text := some "Q" }

/-- Relation with the `(A, B, rel)` key, marked core-answer and carrying
`poison_text = "P"`; enriches `cexEdge8` on merge. -/
def enrichRel8 : Relation := { cexRel8 with is_core_answer := some true }

/-- C8 counterexample: a relation that carries `poison_text` but is not marked
`is_core_answer = true` does not copy its `poison_text` onto the equal-keyed
existing edge — `save_knowledge_graph` builds the candidate edge's
`poison_text` only when `is_core_answer == True` (line 329), so the claim's
unconditional "new relation carries poison_text ⟹ copied" fails. -/
theorem claim_C8_counterexample :
    (mergeFragmentSaved { nodes := [], edges := [cexEdge8] } [] [cexRel8]).edges
      = [cexEdge8] ∧
    cexRel8.poison_text = some "P" ∧
    cexEdge8.poison_text = none ∧
    sameEdgeKey cexEdge8 (relationToSEdge cexRel8) := by
  exact ⟨rfl, rfl, rfl, rfl, rfl, rfl⟩

/-- C8 amended: merging a single relation into the persisted structure upserts
by `(source, target, relation)` key; an existing edge that already carries
`poison_text` is kept verbatim (never erased, whatever the new relation
carries), and if the new relation is marked `is_core_answer = true` and carries
`poison_text` while the first equal-keyed edge lacks it, the `poison_text` is
copied onto that edge without changing the edge count. -/
theorem claim_C8_amended :
    ∀ (nds : List SNode) (es : List SEdge) (r : Relation) (x : SEdge) (p : String),
      ((mergeFragmentSaved { nodes := nds, edges := es } [] [r]).edges
        = upsertSavedEdge es (relationToSEdge r)) ∧
      (x ∈ es → x.poison_text = some p → x ∈ upsertSavedEdge es (relationToSEdge r)) ∧
      (List.find? (fun y => decide (sameEdgeKey y (relationToSEdge r))) es = some x →
        x.poison_text = none → r.is_core_answer = some true → r.poison_text = some p →
        (upsertSavedEdge es (relationToSEdge r)).length = es.length ∧
        List.find? (fun y => decide (sameEdgeKey y (relationToSEdge r)))
          (upsertSavedEdge es (relationToSEdge r))
          = some { x with poison_text := some p }) := by
  intro nds es r x p
  refine ⟨rfl, ?_, ?_⟩
  · intro hx hp
    exact upsertSavedEdge_keeps_poisoned es (relationToSEdge r) x p hx hp
  · intro hfind hx hcore hp
    have hpe : (relationToSEdge r).poison_text = some p := by
      simp [relationToSEdge, hcore, hp]
    have he : (relationToSEdge r).poison_text.isSome := by
      rw [hpe]; rfl
    have h := upsertSavedEdge_enrich es (relationToSEdge r) x hfind hx he
    rw [hpe] at h
    exact h

/-- Witness for C8: the two enrichment behaviors at concrete edges. -/
theorem claim_C8_amended_witness :
    pEdge8 ∈ upsertSavedEdge [pEdge8] (relationToSEdge cexRel8) ∧
    (upsertSavedEdge [cexEdge8] (relationToSEdge enrichRel8)).length = 1 ∧
    List.find? (fun y => decide (sameEdgeKey y (relationToSEdge enrichRel8)))
      (upsertSavedEdge [cexEdge8] (relationToSEdge enrichRel8))
      = some { cexEdge8 with poison_text := some "P" } := by
  have h1 := (claim_C8_amended [] [pEdge8] cexRel8 pEdge8 "Q").2.1
    (List.mem_singleton_self pEdge8) rfl
  have h2 := (claim_C8_amended [] [cexEdge8] enrichRel8 cexEdge8 "P").2.2
    (by decide) rfl rfl rfl
  exact ⟨h1, h2.1.trans rfl, h2.2⟩

end GPA

namespace GPA

/-- networkx attribute-dictionary merge when `build_networkx_graph` re-adds an
existing `(source, target)` edge: keys supplied by the new edge overwrite; the
optional `poison_text` survives when the new edge lacks it. -/
def updateSEdgeAttrs (old new : SEdge) : SEdge :=
  { source := old.source, target := old.target, relation := new.relation,
    context_intent := new.context_intent, is_core_answer := new.is_core_answer,
    poison_text := match new.poison_text with
      | some p => some p
      | none => old.poison_text }

/-- The edge part of `G.add_edge` in `PoisonTextGenerator.build_networkx_graph`
(poison_text_generator.py lines 109-113): one edge per `(source, target)`. -/
def nxUpsertSEdge : List SEdge → SEdge → List SEdge
  | [], e => [e]
  | x :: xs, e =>
    if x.source = e.source ∧ x.target = e.target then updateSEdgeAttrs x e :: xs
    else x :: nxUpsertSEdge xs e

/-- The edge list of the `nx.DiGraph` built by `build_networkx_graph`:
duplicates by `(source, target)` collapsed, adjacency in insertion order. -/
def build_networkx_graph_edges (edges : List SEdge) : List SEdge :=
  edges.foldl nxUpsertSEdge []

/-- Set-like insertion for the node universe (a networkx node set keeps one
copy of each id, in insertion order). -/
def addIfAbsent (l : List String) (x : String) : List String :=
  if x ∈ l then l else l ++ [x]

/-- The node list of the graph built by `build_networkx_graph`: the `nodes`
entries of the subgraph data, then any edge endpoints `add_edge` auto-adds. -/
def graphNodes (ns : List String) (edges : List SEdge) : List String :=
  edges.foldl (fun acc e => addIfAbsent (addIfAbsent acc e.source) e.target)
    (ns.foldl addIfAbsent [])

/-- `G.successors(current)` in adjacency order of the collapsed edge list. -/
def successors (E : List SEdge) (current : String) : List SEdge :=
  E.filter (fun e => decide (e.source = current))

/-- The successors not yet on the current path (`successor not in visited`,
with `remaining` the complement of the visited set). -/
def unvisitedSucc (E : List SEdge) (current : String) (remaining : List String) :
    List SEdge :=
  (successors E current).filter (fun e => decide (e.target ∈ remaining))

/-- The recursive `dfs` of `PoisonTextGenerator.extract_all_paths`
(poison_text_generator.py lines 121-144), with the mutable visited set
re-expressed as its complement `remaining` (each descent removes the chosen
successor; backtracking is implicit in the functional reading) and a fuel
argument standing in for the unbounded Python recursion.  Each recursive call
strictly shrinks `remaining`, so any fuel exceeding `remaining.length` computes
the same result (`dfsFuel_stable`); fuel exhaustion is unreachable from
`extract_all_paths`. -/
def dfsFuel (E : List SEdge) : Nat → String → List SEdge → List String → List (List SEdge)
  | 0, _, _, _ => []
  | fuel + 1, current, path, remaining =>
    if (successors E current).isEmpty then
      (if path.isEmpty then [] else [path])
    else if (unvisitedSucc E current remaining).isEmpty then
      (if path.isEmpty then [] else [path])
    else
      ((unvisitedSucc E current remaining).map
        (fun e => dfsFuel E fuel e.target (path ++ [e]) (remaining.erase e.target))).flatten

lemma dfsFuel_succ (E : List SEdge) (fuel : Nat) (current : String)
    (path : List SEdge) (remaining : List String) :
    dfsFuel E (fuel + 1) current path remaining =
      if (successors E current).isEmpty then
        (if path.isEmpty then [] else [path])
      else if (unvisitedSucc E current remaining).isEmpty then
        (if path.isEmpty then [] else [path])
      else
        ((unvisitedSucc E current remaining).map
          (fun e => dfsFuel E fuel e.target (path ++ [e]) (remaining.erase e.target))).flatten
  := rfl

/-- `PoisonTextGenerator.extract_all_paths(G, core_entity)`
(poison_text_generator.py lines 117-149): the root is pre-marked visited
(erased from the node universe) and the search starts with an empty path.  The
fuel `remaining.length + 1` is sufficient by `dfsFuel_stable`. -/
def extract_all_paths (edges : List SEdge) (ns : List String) (core : String) :
    List (List SEdge) :=
  dfsFuel (build_networkx_graph_edges edges)
    (((graphNodes ns edges).erase core).length + 1) core []
    ((graphNodes ns edges).erase core)

lemma dfsFuel_stable (E : List SEdge) :
    ∀ (fuel fuel' : Nat) (current : String) (path : List SEdge) (remaining : List String),
      remaining.length < fuel → remaining.length < fuel' →
      dfsFuel E fuel current path remaining = dfsFuel E fuel' current path remaining := by
  intro fuel
  induction fuel with
  | zero =>
    intro fuel' c p r h _
    exact absurd h (Nat.not_lt_zero _)
  | succ f ih =>
    intro fuel' c p r h h'
    cases fuel' with
    | zero => exact absurd h' (Nat.not_lt_zero _)
    | succ f' =>
      rw [dfsFuel_succ, dfsFuel_succ]
      by_cases h1 : (successors E c).isEmpty
      · rw [if_pos h1, if_pos h1]
      · rw [if_neg h1, if_neg h1]
        by_cases h2 : (unvisitedSucc E c r).isEmpty
        · rw [if_pos h2, if_pos h2]
        · rw [if_neg h2, if_neg h2]
          congr 1
          apply List.map_congr_left
          intro e he
          have het : e.target ∈ r := by
            have := List.of_mem_filter he
            simpa using this
          have hlen : (r.erase e.target).length < r.length := by
            rw [List.length_erase_of_mem het]
            have hpos : 0 < r.length := List.length_pos.mpr (List.ne_nil_of_mem het)
            omega
          exact ih f' e.target (p ++ [e]) (r.erase e.target) (by omega) (by omega)

lemma dfsFuel_chain (E : List SEdge) :
    ∀ (fuel : Nat) (current : String) (path : List SEdge) (remaining : List String),
      remaining.Nodup →
      ∀ p ∈ dfsFuel E fuel current path remaining,
        ∃ ext, p = path ++ ext ∧ (ext.map SEdge.target).Nodup ∧
          ∀ e ∈ ext, e.target ∈ remaining := by
  intro fuel
  induction fuel with
  | zero =>
    intro c path r _ p hp
    simp [dfsFuel] at hp
  | succ f ih =>
    intro c path r hnd p hp
    rw [dfsFuel_succ] at hp
    have hrecord : p ∈ (if path.isEmpty then ([] : List (List SEdge)) else [path]) →
        ∃ ext, p = path ++ ext ∧ (ext.map SEdge.target).Nodup ∧
          ∀ e ∈ ext, e.target ∈ r := by
      intro hq
      by_cases h2 : path.isEmpty
      · rw [if_pos h2] at hq
        simp at hq
      · rw [if_neg h2] at hq
        have : p = path := by simpa using hq
        exact ⟨[], by simp [this], by simp, by simp⟩
    by_cases h1 : (successors E c).isEmpty
    · rw [if_pos h1] at hp
      exact hrecord hp
    · rw [if_neg h1] at hp
      by_cases h2 : (unvisitedSucc E c r).isEmpty
      · rw [if_pos h2] at hp
        exact hrecord hp
      · rw [if_neg h2] at hp
        rw [List.mem_flatten] at hp
        obtain ⟨l, hl, hpl⟩ := hp
        rw [List.mem_map] at hl
        obtain ⟨e, he, rfl⟩ := hl
        have het : e.target ∈ r := by
          have := List.of_mem_filter he
          simpa using this
        obtain ⟨ext, hpe, hnd2, hsub⟩ :=
          ih e.target (path ++ [e]) (r.erase e.target) (hnd.erase _) p hpl
        refine ⟨e :: ext, ?_, ?_, ?_⟩
        · rw [hpe, List.append_assoc]
          rfl
        · simp only [List.map_cons]
          rw [List.nodup_cons]
          refine ⟨?_, hnd2⟩
          intro hmem
          rw [List.mem_map] at hmem
          obtain ⟨e2, he2, hte⟩ := hmem
          have hmem2 := hsub e2 he2
          rw [hte] at hmem2
          exact ((List.Nodup.mem_erase_iff hnd).mp hmem2).1 rfl
        · intro e2 he2
          rcases List.mem_cons.mp he2 with h3 | h3
          · rw [h3]; exact het
          · exact List.mem_of_mem_erase (hsub e2 h3)

lemma addIfAbsent_nodup (l : List String) (x : String) (h : l.Nodup) :
    (addIfAbsent l x).Nodup := by
  unfold addIfAbsent
  by_cases hx : x ∈ l
  · rw [if_pos hx]; exact h
  · rw [if_neg hx]
    simp [List.nodup_append, h, hx]

lemma foldl_addIfAbsent_nodup :
    ∀ (l acc : List String), acc.Nodup → (l.foldl addIfAbsent acc).Nodup := by
  intro l
  induction l with
  | nil => intro acc h; exact h
  | cons x xs ih => intro acc h; exact ih _ (addIfAbsent_nodup acc x h)

lemma foldl_edgeNodes_nodup :
    ∀ (edges : List SEdge) (acc : List String), acc.Nodup →
      (edges.foldl (fun acc e => addIfAbsent (addIfAbsent acc e.source) e.target)
        acc).Nodup := by
  intro edges
  induction edges with
  | nil => intro acc h; exact h
  | cons e es ih =>
    intro acc h
    exact ih _ (addIfAbsent_nodup _ e.target (addIfAbsent_nodup acc e.source h))

lemma graphNodes_nodup (ns : List String) (edges : List SEdge) :
    (graphNodes ns edges).Nodup := by
  unfold graphNodes
  exact foldl_edgeNodes_nodup edges _ (foldl_addIfAbsent_nodup ns [] List.nodup_nil)

/-- Chain edge `A → B`. -/
def eAB : SEdge :=
  { source := "A", target := "B", relation := "r1", context_intent := "c1",
    is_core_answer := false, poison_text := none }

/-- Chain edge `B → C`. -/
def eBC : SEdge :=
  { source := "B", target := "C", relation := "r2", context_intent := "c2",
    is_core_answer := false, poison_text := none }

/-- Chain edge `C → D`. -/
def eCD : SEdge :=
  { source := "C", target := "D", relation := "r3", context_intent := "c3",
    is_core_answer := false, poison_text := none }

/-- Cycle-closing edge `B → A`. -/
def eBA : SEdge :=
  { source := "B", target := "A", relation := "r4", context_intent := "c4",
    is_core_answer := false, poison_text := none }

/-- C6: on the single chain `A → B → C → D`, `extract_all_paths` from root `A`
returns exactly one path, consisting of the edges `(A,B), (B,C), (C,D)` in
that order. -/
theorem claim_C6_chain_single_path :
    extract_all_paths [eAB, eBC, eCD] ["A", "B", "C", "D"] "A" = [[eAB, eBC, eCD]] := by
  decide

/-- C7: path enumeration terminates on every finite graph — any fuel above the
size of the unvisited node universe computes the fixed result of
`extract_all_paths` — the per-path visited set (root pre-marked) keeps the node
chain of every returned path duplicate-free, and on the cycle `A → B → A` the
enumeration terminates with exactly the path `[(A, B)]`, which stops at `B`
because its only successor `A` would revisit the root. -/
theorem claim_C7_termination_and_simple_paths :
    (∀ (edges : List SEdge) (ns : List String) (core : String) (fuel : Nat),
      ((graphNodes ns edges).erase core).length < fuel →
      dfsFuel (build_networkx_graph_edges edges) fuel core []
          ((graphNodes ns edges).erase core)
        = extract_all_paths edges ns core) ∧
    (∀ (edges : List SEdge) (ns : List String) (core : String) (p : List SEdge),
      p ∈ extract_all_paths edges ns core → (core :: p.map SEdge.target).Nodup) ∧
    extract_all_paths [eAB, eBA] ["A", "B"] "A" = [[eAB]] := by
  refine ⟨?_, ?_, ?_⟩
  · intro edges ns core fuel h
    unfold extract_all_paths
    exact dfsFuel_stable _ fuel _ core [] _ h (Nat.lt_succ_self _)
  · intro edges ns core p hp
    unfold extract_all_paths at hp
    have hnd : ((graphNodes ns edges).erase core).Nodup :=
      (graphNodes_nodup ns edges).erase _
    obtain ⟨ext, hpe, hnd2, hsub⟩ := dfsFuel_chain _ _ core [] _ hnd p hp
    rw [List.nil_append] at hpe
    subst hpe
    rw [List.nodup_cons]
    refine ⟨?_, hnd2⟩
    intro hmem
    rw [List.mem_map] at hmem
    obtain ⟨e, he, hte⟩ := hmem
    have hmem2 := hsub e he
    rw [hte] at hmem2
    exact ((List.Nodup.mem_erase_iff (graphNodes_nodup ns edges)).mp hmem2).1 rfl
  · decide

/-- Witness for C7 on the concrete cycle `A → B → A`. -/
theorem claim_C7_termination_and_simple_paths_witness :
    dfsFuel (build_networkx_graph_edges [eAB, eBA]) 7 "A" []
        ((graphNodes ["A", "B"] [eAB, eBA]).erase "A")
      = extract_all_paths [eAB, eBA] ["A", "B"] "A" ∧
    ("A" :: [eAB].map SEdge.target).Nodup := by
  have h := claim_C7_termination_and_simple_paths
  refine ⟨h.1 [eAB, eBA] ["A", "B"] "A" 7 (by decide), ?_⟩
  exact h.2.1 [eAB, eBA] ["A", "B"] "A" [eAB] (by decide)

end GPA

namespace GPA

/-- One poison-entity record extracted by
`PoisonTextEnhancer.extract_poison_entities`
(poison_text_enhancer.py lines 101-116). -/
structure PoisonEntity where
  poison_text : String
  context_intent : String
  relation : String
  source : String
  target : String
  is_synthetic : Bool
deriving DecidableEq, Repr

/-- `PoisonTextEnhancer.extract_poison_entities`: the edges whose
`poison_text` key is present and non-blank, in edge order, marked
non-synthetic.  Python's `edge["poison_text"].strip()` truthiness — the
stripped string is non-empty — is expressed directly as "some character is not
whitespace". -/
def extract_poison_entities (edges : List SEdge) : List PoisonEntity :=
  edges.filterMap (fun e =>
    match e.poison_text with
    | some p =>
      if p.data.any (fun c => !c.isWhitespace) then
        some { poison_text := p, context_intent := e.context_intent,
               relation := e.relation, source := e.source, target := e.target,
               is_synthetic := false }
      else none
    | none => none)

/-- `itertools.combinations(l, 2)`: all unordered pairs in list order. -/
def pairsC2 {α : Type} : List α → List (α × α)
  | [] => []
  | x :: xs => xs.map (fun y => (x, y)) ++ pairsC2 xs

/-- `itertools.product(l1, l2)`: the full ordered cross product. -/
def prodPairs {α : Type} (l1 l2 : List α) : List (α × α) :=
  (l1.map (fun a => l2.map (fun b => (a, b)))).flatten

/-- The `entity_pairs` enumeration of
`PoisonTextEnhancer.process_entity_batch`
(poison_text_enhancer.py lines 257-259): 2-combinations of the batch followed
by the batch × synthetic cross product.  The per-pair enhancement-text
generation that consumes these pairs is an external LLM call and is out of the
model. -/
def process_entity_batch_pairs (batch synths : List PoisonEntity) :
    List (PoisonEntity × PoisonEntity) :=
  pairsC2 batch ++ prodPairs batch synths

/-- Fuelled chunking; each step consumes at least the head element, so any
fuel of at least `l.length` gives the Python slicing
`[l[i:i+k] for i in range(0, len(l), k)]` (see `chunksFuel_stable`). -/
def chunksFuel {α : Type} (k : Nat) : Nat → List α → List (List α)
  | _, [] => []
  | 0, _ :: _ => []
  | fuel + 1, x :: xs => (x :: xs.take (k - 1)) :: chunksFuel k fuel (xs.drop (k - 1))

/-- The batch slicing of `process_subgraph` (poison_text_enhancer.py line 305). -/
def chunks {α : Type} (k : Nat) (l : List α) : List (List α) :=
  chunksFuel k l.length l

lemma chunksFuel_stable {α : Type} (k : Nat) :
    ∀ (fuel fuel' : Nat) (l : List α), l.length ≤ fuel → l.length ≤ fuel' →
      chunksFuel k fuel l = chunksFuel k fuel' l := by
  intro fuel
  induction fuel with
  | zero =>
    intro fuel' l h _
    cases l with
    | nil => cases fuel' <;> rfl
    | cons x xs => simp at h
  | succ f ih =>
    intro fuel' l h h'
    cases l with
    | nil => cases fuel' <;> rfl
    | cons x xs =>
      cases fuel' with
      | zero => simp at h'
      | succ f' =>
        show (x :: xs.take (k - 1)) :: chunksFuel k f (xs.drop (k - 1))
          = (x :: xs.take (k - 1)) :: chunksFuel k f' (xs.drop (k - 1))
        have hd : (xs.drop (k - 1)).length ≤ xs.length := by
          rw [List.length_drop]; omega
        simp only [List.length_cons] at h h'
        rw [ih f' (xs.drop (k - 1)) (by omega) (by omega)]

/-- `PoisonTextEnhancer.min_entities_required` (poison_text_enhancer.py
line 27). -/
def min_entities_required : Nat := 6

/-- `PoisonTextEnhancer.batch_size` (poison_text_enhancer.py line 28). -/
def enhancer_batch_size : Nat := 1

/-- `PoisonTextEnhancer.process_subgraph`
(poison_text_enhancer.py lines 289-343), restricted to its deterministic
skeleton: extract the original poison entities; if none, nothing; otherwise
slice them into batches of `batchSize` and, per batch, request
`max(0, minReq - len(batch))` synthetic entities from the `synth` collaborator
(an oracle for `generate_synthetic_poison_entities`, whose results are marked
synthetic) when that count is positive, then enumerate the batch's pairs.
Returns the list of per-call requested counts and the concatenated pair list. -/
def process_subgraph (minReq batchSize : Nat) (edges : List SEdge)
    (synth : Nat → Nat → List PoisonEntity) :
    List Nat × List (PoisonEntity × PoisonEntity) :=
  let orig := extract_poison_entities edges
  if orig.isEmpty then ([], [])
  else
    (chunks batchSize orig).enum.foldl
      (fun acc ib =>
        let needed := minReq - ib.2.length
        let synths := if needed > 0 then
            (synth ib.1 needed).map (fun e => { e with is_synthetic := true })
          else []
        ((if needed > 0 then acc.1 ++ [needed] else acc.1),
         acc.2 ++ process_entity_batch_pairs ib.2 synths))
      ([], [])

/-- Poisoned edge 1 for the C4 instances. -/
def pe1 : SEdge :=
  { source := "S1", target := "T1", relation := "r1", context_intent := "c1",
    is_core_answer := true, poison_text := some "P1" }

/-- Poisoned edge 2 for the C4 instances. -/
def pe2 : SEdge :=
  { source := "S2", target := "T2", relation := "r2", context_intent := "c2",
    is_core_answer := true, poison_text := some "P2" }

/-- Poisoned edge 3 for the C4 instances. -/
def pe3 : SEdge :=
  { source := "S3", target := "T3", relation := "r3", context_intent := "c3",
    is_core_answer := true, poison_text := some "P3" }

/-- A synthesize oracle that returns exactly the requested number of
entities. -/
def cexSynth : Nat → Nat → List PoisonEntity :=
  fun _ n => List.replicate n
    { poison_text := "SP", context_intent := "sc", relation := "sr",
      source := "ss", target := "st", is_synthetic := false }

/-- C4 counterexample: with 3 original poisoned edges, `min_required = 6` and
the code's hard-wired `batch_size = 1`, the originals are split into three
singleton batches; each batch requests `6 - 1 = 5` synthetic entities (three
calls, 15 requested in total, not one call for 3), and with the oracle
returning what was requested the emitted pair enumeration has 15 pairs, not
`C(3,2) + 3*3 = 12`. -/
theorem claim_C4_counterexample :
    (process_subgraph min_entities_required enhancer_batch_size
        [pe1, pe2, pe3] cexSynth).1 = [5, 5, 5] ∧
    (process_subgraph min_entities_required enhancer_batch_size
        [pe1, pe2, pe3] cexSynth).2.length = 15 ∧
    (process_subgraph min_entities_required enhancer_batch_size
        [pe1, pe2, pe3] cexSynth).1.sum ≠ 3 ∧
    (process_subgraph min_entities_required enhancer_batch_size
        [pe1, pe2, pe3] cexSynth).2.length ≠ 12 := by
  decide

/-- C4 amended: whenever exactly 3 original poisoned edges are extracted and
the synthesize collaborator returns as many entities as requested, the pair
composer (with the source's `min_entities_required = 6`, `batch_size = 1`)
issues three synthesize calls of 5 requested entities each, and the emitted
pair enumeration has size `3 * (C(1,2) + 1*5) = 15`: no original×original
pairs, and the cross product of each original with its batch's synthetics. -/
theorem claim_C4_amended :
    ∀ (edges : List SEdge) (synth : Nat → Nat → List PoisonEntity)
      (a b c : PoisonEntity),
      extract_poison_entities edges = [a, b, c] →
      (∀ i n, (synth i n).length = n) →
      (process_subgraph min_entities_required enhancer_batch_size edges synth).1
        = [5, 5, 5] ∧
      (process_subgraph min_entities_required enhancer_batch_size edges synth).2.length
        = 15 := by
  intro edges synth a b c horig hsynth
  unfold process_subgraph
  rw [horig]
  constructor
  · rfl
  · simp [process_entity_batch_pairs, pairsC2, prodPairs, chunks, chunksFuel,
      min_entities_required, enhancer_batch_size, List.enum, List.enumFrom, hsynth]

/-- Witness for C4 at the concrete three-edge subgraph and exact-count
oracle. -/
theorem claim_C4_amended_witness :
    (process_subgraph min_entities_required enhancer_batch_size
        [pe1, pe2, pe3] cexSynth).1 = [5, 5, 5] ∧
    (process_subgraph min_entities_required enhancer_batch_size
        [pe1, pe2, pe3] cexSynth).2.length = 15 := by
  exact claim_C4_amended [pe1, pe2, pe3] cexSynth
    { poison_text := "P1", context_intent := "c1", relation := "r1",
      source := "S1", target := "T1", is_synthetic := false }
    { poison_text := "P2", context_intent := "c2", relation := "r2",
      source := "S2", target := "T2", is_synthetic := false }
    { poison_text := "P3", context_intent := "c3", relation := "r3",
      source := "S3", target := "T3", is_synthetic := false }
    (by decide)
    (fun i n => by simp [cexSynth])

end GPA
